import Mathlib

/-!
Verification of the offline-resilient rate retrieval and caching engine of the
currency-converter repository (`src/src/currency-service.ts`, `src/public/sw.js`).

Modelling conventions:
* JavaScript `number` is embedded as `ℚ` (the engine performs only one
  multiplication, `amount * rate`, which the spec requires to be exact).
* Timestamps are epoch milliseconds (`Nat`); `Date.UTC(getUTCFullYear, getUTCMonth,
  getUTCDate)` of a timestamp `t` is its truncation to UTC midnight, `t - t % 86400000`.
* A JavaScript `Map` is an association list in insertion order; `Map.set` replaces
  the value of an existing key in place, otherwise appends.
* The HTTP layer is an external collaborator: each remote call is a parameter of
  type `Except Unit _`, where `Except.error ()` stands for any of the failure modes
  the `catch` in the source collapses (network error, non-ok status, unparseable
  body), and success carries the already-parsed payload in the shape the source
  destructures (`{ data: [{base_currency, target_currency, rate, date}] }` for the
  worker, `{ date, rates: { CODE: number } }` for Frankfurter).
-/

namespace CurrencyConverter

/-- Record `ExchangeRate` from `src/src/types.ts`: one directed conversion factor.
`fetchRates` never sets `source_date`, so it defaults to `none`. -/
structure ExchangeRate where
  base : String
  target : String
  rate : ℚ
  date : String
  source_date : Option String := none
deriving DecidableEq, Repr

/-- The service's `cache : Map<string, ExchangeRate[]>` as an insertion-ordered
association list. -/
abbrev Cache := List (String × List ExchangeRate)

/-- JavaScript `Map.get`: value of the first (unique) matching key, else absent. -/
def cacheGet (c : Cache) (k : String) : Option (List ExchangeRate) :=
  match c with
  | [] => none
  | p :: rest => if p.1 = k then some p.2 else cacheGet rest k

/-- JavaScript `Map.set`: replace the value of an existing key in place, otherwise append. -/
def cacheSet (c : Cache) (k : String) (v : List ExchangeRate) : Cache :=
  match c with
  | [] => [(k, v)]
  | p :: rest => if p.1 = k then (k, v) :: rest else p :: cacheSet rest k v

/-- In-memory service state: the rate cache plus the persisted fetch metadata.
`updateMetadata` writes `{ lastFetch: new Date().toISOString() }` and nothing
else, so the persisted metadata is just an optional timestamp (`none` = the
`fetch-metadata` key is absent, i.e. "never fetched"). -/
structure StoreState where
  cache : Cache
  metaLastFetch : Option Nat
deriving DecidableEq, Repr

/-- One element of the worker response's `data` array, with the field names the
source reads (`item.base_currency`, `item.target_currency`, `item.rate`,
`item.date`). -/
structure RawRateItem where
  base_currency : String
  target_currency : String
  rate : ℚ
  date : String
deriving DecidableEq, Repr

/-- The parsed Frankfurter response `{ date, rates }`; `rates` is a JavaScript
object, so its key list has no duplicates. -/
structure FrankResp where
  date : String
  rates : List (String × ℚ)
deriving DecidableEq, Repr

/-- The mapping applied to each worker `data` item:
`{ base: item.base_currency, target: item.target_currency, rate: item.rate, date: item.date }`. -/
def rateOfItem (it : RawRateItem) : ExchangeRate :=
  { base := it.base_currency, target := it.target_currency, rate := it.rate, date := it.date }

/-- The mapping applied to each `Object.entries(data.rates)` pair in the
fallback branch: `{ base, target, rate, date: data.date }`. -/
def frankRate (base : String) (date : String) (p : String × ℚ) : ExchangeRate :=
  { base := base, target := p.1, rate := p.2, date := date }

/-- Model of `getCachedRates`: `this.cache.get(base) || null` (a stored array, even an
empty one, is truthy, so this is exactly the `Map` lookup). -/
def getCachedRates (s : StoreState) (base : String) : Option (List ExchangeRate) :=
  cacheGet s.cache base

/-- Model of `CurrencyService.fetchRates`, with the two remote calls abstracted as
parameters (see the module docstring) and `now` the timestamp `updateMetadata`
would persist. The outer `try` maps the worker payload and caches it; its
`catch` runs the fallback `try`, whose own `catch` returns
`this.getCachedRates(base) || []` and leaves the state untouched. The function
is total: no branch propagates an error to the caller. -/
def fetchRates (base : String) (primary : Except Unit (List RawRateItem))
    (fallback : Except Unit FrankResp) (now : Nat) (s : StoreState) :
    List ExchangeRate × StoreState :=
  match primary with
  | Except.ok items =>
      let rates := items.map rateOfItem
      (rates, { cache := cacheSet s.cache base rates, metaLastFetch := some now })
  | Except.error _ =>
      match fallback with
      | Except.ok d =>
          let rates := d.rates.map (frankRate base d.date)
          (rates, { cache := cacheSet s.cache base rates, metaLastFetch := some now })
      | Except.error _ =>
          ((getCachedRates s base).getD [], s)

/-- Model of `getRate`: find the first entry whose `target` matches and return
`rate?.rate || null`. A rate of `0` is falsy in JavaScript, so `0 || null`
evaluates to `null`; an absent entry gives `undefined || null = null`. -/
def getRate (c : Cache) (base target : String) : Option ℚ :=
  match cacheGet c base with
  | none => none
  | some rates =>
      match rates.find? (fun r => r.target == target) with
      | none => none
      | some e => if e.rate = 0 then none else some e.rate

/-- Model of `convert(amount, base, target)`: identity short-circuit when
`base === target`, otherwise `getRate` then `amount * rate`; `none` models the
`null` ("unknown rate") result. -/
def convert (amount : ℚ) (base target : String) (c : Cache) : Option ℚ :=
  if base = target then some amount
  else
    match getRate c base target with
    | none => none
    | some r => some (amount * r)

/-! ### Freshness evaluation (`hasNewDataAvailable`, `getMetadata`) -/

/-- Milliseconds per UTC day. -/
def msPerDay : Nat := 86400000

/-- Value of `Date.UTC(t.getUTCFullYear(), t.getUTCMonth(), t.getUTCDate())` for a
timestamp `t`: the epoch milliseconds of the UTC midnight starting `t`'s
calendar date (Unix time has no leap seconds, so this is truncation). -/
def utcMidnight (t : Nat) : Nat := t - t % msPerDay

/-- Model of `hasNewDataAvailable(lastFetch)`: `true` for `"Never"` (modelled `none`),
otherwise `lastFetchDay.getTime() !== today.getTime()` on the two midnight
truncations. `now` is the current time. -/
def hasNewDataAvailable (lastFetch : Option Nat) (now : Nat) : Bool :=
  match lastFetch with
  | none => true
  | some t => decide (utcMidnight t ≠ utcMidnight now)

/-- The view `getMetadata` returns to the UI. -/
structure FetchMetadataView where
  lastFetch : Option Nat
  isOnline : Bool
  hasNewData : Bool
deriving DecidableEq, Repr

/-- Model of `getMetadata`: when the stored metadata has a `lastFetch` timestamp, spread
it and recompute `hasNewData`; when the `fetch-metadata` key is absent, report
`lastFetch: "Never"` (`none`) with `hasNewData: true`. -/
def getMetadata (storedLastFetch : Option Nat) (online : Bool) (now : Nat) :
    FetchMetadataView :=
  match storedLastFetch with
  | some t => { lastFetch := some t, isOnline := online,
                hasNewData := hasNewDataAvailable (some t) now }
  | none => { lastFetch := none, isOnline := online, hasNewData := true }

/-- Spec-side reading of "same UTC calendar date": the two timestamps lie in
the same whole UTC day since the epoch. -/
def sameUTCDay (t now : Nat) : Prop := t / msPerDay = now / msPerDay

instance (t now : Nat) : Decidable (sameUTCDay t now) :=
  inferInstanceAs (Decidable (_ = _))

/-! ### The network interception proxy (`src/public/sw.js`, `handleApiRequest`) -/

/-- A minimal JSON value model (numbers as `ℚ`). -/
inductive Json where
  | null : Json
  | bool : Bool → Json
  | num : ℚ → Json
  | str : String → Json
  | arr : List Json → Json
  | obj : List (String × Json) → Json
deriving Repr

/-- Field access on a JSON object (`undefined`, i.e. `none`, otherwise). -/
def jsonGetField (j : Json) (k : String) : Option Json :=
  match j with
  | Json.obj fields =>
      match fields.find? (fun p => p.1 == k) with
      | some p => some p.2
      | none => none
  | _ => none

/-- An HTTP response as the service worker observes it: a status code and a
JSON body. `response.ok` is status 200–299. -/
structure SwResponse where
  status : Nat
  body : Json
deriving Repr

/-- JavaScript `Response.ok`. -/
def responseOk (r : SwResponse) : Bool := 200 ≤ r.status && r.status < 300

/-- The API response cache partition: `(request) → most recent response`.
Requests are identified by their URL key, as `cache.match(request)` does. -/
abbrev SwCache := List (String × SwResponse)

/-- Model of `cache.match(request)`. -/
def swCacheMatch (c : SwCache) (req : String) : Option SwResponse :=
  match c with
  | [] => none
  | p :: rest => if p.1 = req then some p.2 else swCacheMatch rest req

/-- Model of `cache.put(request, response)`: replace the entry for the same request
wholesale, otherwise add it. -/
def swCachePut (c : SwCache) (req : String) (r : SwResponse) : SwCache :=
  match c with
  | [] => [(req, r)]
  | p :: rest => if p.1 = req then (req, r) :: rest else p :: swCachePut rest req r

/-- The synthesized offline response:
`new Response(JSON.stringify({error: ..., offline: true}), {status: 503, ...})`. -/
def offlineResponse : SwResponse :=
  { status := 503,
    body := Json.obj [("error", Json.str "Offline - no cached data available"),
                      ("offline", Json.bool true)] }

/-- Model of `handleApiRequest`, with the network fetch abstracted as an
`Except Unit SwResponse` parameter (`Except.error ()` = `fetch` rejected, e.g.
network unreachable). A non-ok network response throws into the same `catch` as
a rejected fetch; the `catch` serves `cache.match(request)` when it hits, else
the synthesized 503. Returns the response served and the cache afterwards. -/
def handleApiRequest (network : Except Unit SwResponse) (c : SwCache)
    (req : String) : SwResponse × SwCache :=
  match network with
  | Except.ok resp =>
      if responseOk resp then (resp, swCachePut c req resp)
      else
        match swCacheMatch c req with
        | some cached => (cached, c)
        | none => (offlineResponse, c)
  | Except.error _ =>
      match swCacheMatch c req with
      | some cached => (cached, c)
      | none => (offlineResponse, c)

/-! ### A model of `JSON.parse` (platform builtin used, unguarded, by
`loadFromLocalStorage`) -/

/-- JSON whitespace. -/
def isJsonWs (c : Char) : Bool :=
  c == ' ' || c == '\n' || c == '\t' || c == '\r'

/-- Drop leading JSON whitespace. -/
def skipWs : List Char → List Char
  | [] => []
  | c :: cs => if isJsonWs c then skipWs cs else c :: cs

/-- Value of a hexadecimal digit. -/
def hexVal (c : Char) : Option Nat :=
  if '0' ≤ c && c ≤ '9' then some (c.toNat - 48)
  else if 'a' ≤ c && c ≤ 'f' then some (c.toNat - 87)
  else if 'A' ≤ c && c ≤ 'F' then some (c.toNat - 55)
  else none

/-- Parse the body of a JSON string after its opening quote, handling the
standard escapes; returns the string and the input after the closing quote. -/
def parseStringChars : List Char → List Char → Option (String × List Char)
  | acc, '"' :: rest => some (String.mk acc.reverse, rest)
  | acc, '\\' :: e :: rest =>
      match e with
      | '"' => parseStringChars ('"' :: acc) rest
      | '\\' => parseStringChars ('\\' :: acc) rest
      | '/' => parseStringChars ('/' :: acc) rest
      | 'b' => parseStringChars ('\x08' :: acc) rest
      | 'f' => parseStringChars ('\x0c' :: acc) rest
      | 'n' => parseStringChars ('\n' :: acc) rest
      | 'r' => parseStringChars ('\r' :: acc) rest
      | 't' => parseStringChars ('\t' :: acc) rest
      | 'u' =>
          match rest with
          | h1 :: h2 :: h3 :: h4 :: rest2 =>
              match hexVal h1, hexVal h2, hexVal h3, hexVal h4 with
              | some a, some b, some c, some d =>
                  parseStringChars (Char.ofNat (((a * 16 + b) * 16 + c) * 16 + d) :: acc) rest2
              | _, _, _, _ => none
          | _ => none
      | _ => none
  | acc, c :: rest =>
      if c == '\\' || c == '"' then none else parseStringChars (c :: acc) rest
  | _, [] => none

/-- Consume leading decimal digits, returning the accumulated value, the count
of digits consumed, and the remaining input. -/
def takeDigits : List Char → Nat → Nat → Nat × Nat × List Char
  | [], acc, n => (acc, n, [])
  | c :: rest, acc, n =>
      if c.isDigit then takeDigits rest (10 * acc + (c.toNat - 48)) (n + 1)
      else (acc, n, c :: rest)

/-- Parse the digits of an exponent and apply it to `v`. -/
def parseExpDigits (v : ℚ) (negExp : Bool) (cs : List Char) : Option (ℚ × List Char) :=
  match takeDigits cs 0 0 with
  | (e, k, rest) =>
      if k = 0 then none
      else some (if negExp then v / 10 ^ e else v * 10 ^ e, rest)

/-- Parse an optional exponent part after the mantissa `v`. -/
def parseExpOpt (v : ℚ) (cs : List Char) : Option (ℚ × List Char) :=
  match cs with
  | 'e' :: r => parseExpSign v r
  | 'E' :: r => parseExpSign v r
  | _ => some (v, cs)
where
  parseExpSign (v : ℚ) (cs : List Char) : Option (ℚ × List Char) :=
    match cs with
    | '+' :: r => parseExpDigits v false r
    | '-' :: r => parseExpDigits v true r
    | _ => parseExpDigits v false cs

/-- Parse an unsigned JSON number (integer part, optional fraction, optional
exponent). -/
def parseNumberPos (cs : List Char) : Option (ℚ × List Char) :=
  match takeDigits cs 0 0 with
  | (ip, k, rest) =>
      if k = 0 then none
      else
        match rest with
        | '.' :: r =>
            match takeDigits r 0 0 with
            | (fn, fk, r2) =>
                if fk = 0 then none
                else parseExpOpt ((ip : ℚ) + (fn : ℚ) / 10 ^ fk) r2
        | _ => parseExpOpt (ip : ℚ) rest

/-- Parse a JSON number with optional leading minus sign. -/
def parseNumber (cs : List Char) : Option (ℚ × List Char) :=
  match cs with
  | '-' :: rest => (parseNumberPos rest).map (fun p => (-p.1, p.2))
  | _ => parseNumberPos cs

mutual

/-- Parse one JSON value; `fuel` bounds the recursion depth (two units per
nesting level suffice). -/
def parseValue : Nat → List Char → Option (Json × List Char)
  | 0, _ => none
  | fuel + 1, cs =>
      match skipWs cs with
      | [] => none
      | c :: rest =>
          if c = '\x7b' then
            match skipWs rest with
            | '\x7d' :: r => some (Json.obj [], r)
            | r => (parseObjItems fuel r).map (fun p => (Json.obj p.1, p.2))
          else if c = '[' then
            match skipWs rest with
            | ']' :: r => some (Json.arr [], r)
            | r => (parseArrayItems fuel r).map (fun p => (Json.arr p.1, p.2))
          else if c = '"' then
            (parseStringChars [] rest).map (fun p => (Json.str p.1, p.2))
          else if c = 't' then
            match rest with
            | 'r' :: 'u' :: 'e' :: r => some (Json.bool true, r)
            | _ => none
          else if c = 'f' then
            match rest with
            | 'a' :: 'l' :: 's' :: 'e' :: r => some (Json.bool false, r)
            | _ => none
          else if c = 'n' then
            match rest with
            | 'u' :: 'l' :: 'l' :: r => some (Json.null, r)
            | _ => none
          else
            (parseNumber (c :: rest)).map (fun p => (Json.num p.1, p.2))

/-- Parse the elements of a non-empty JSON array, up to and including `]`. -/
def parseArrayItems : Nat → List Char → Option (List Json × List Char)
  | 0, _ => none
  | fuel + 1, cs =>
      match parseValue fuel cs with
      | none => none
      | some (v, rest) =>
          match skipWs rest with
          | ',' :: r => (parseArrayItems fuel r).map (fun p => (v :: p.1, p.2))
          | ']' :: r => some ([v], r)
          | _ => none

/-- Parse the members of a non-empty JSON object, up to and including the
closing brace. -/
def parseObjItems : Nat → List Char → Option (List (String × Json) × List Char)
  | 0, _ => none
  | fuel + 1, cs =>
      match skipWs cs with
      | '"' :: rest =>
          match parseStringChars [] rest with
          | none => none
          | some (k, rest2) =>
              match skipWs rest2 with
              | ':' :: rest3 =>
                  match parseValue fuel rest3 with
                  | none => none
                  | some (v, rest4) =>
                      match skipWs rest4 with
                      | ',' :: r => (parseObjItems fuel r).map (fun p => ((k, v) :: p.1, p.2))
                      | '\x7d' :: r => some ([(k, v)], r)
                      | _ => none
              | _ => none
      | _ => none

end

/-- Model of `JSON.parse`: parse one value, require only whitespace after it;
`none` models the thrown `SyntaxError`. -/
def jsonParse (s : String) : Option Json :=
  let cs := s.toList
  match parseValue (2 * cs.length + 2) cs with
  | some (v, rest) => if skipWs rest = [] then some v else none
  | none => none

/-! ### Persistence (`saveToLocalStorage` / `loadFromLocalStorage`) -/

/-- Model of `Object.entries(x)` on a parsed JSON value: throws (`error`) on
`null`, lists the members of an object, indexes the elements of an array or the
characters of a string, and is empty on numbers and booleans. -/
def objectEntries (j : Json) : Except Unit (List (String × Json)) :=
  match j with
  | Json.null => Except.error ()
  | Json.obj fields => Except.ok fields
  | Json.arr xs => Except.ok (xs.enum.map (fun p => (toString p.1, p.2)))
  | Json.str s => Except.ok (s.toList.enum.map (fun p => (toString p.1, Json.str (String.mk [p.2]))))
  | Json.num _ => Except.ok []
  | Json.bool _ => Except.ok []

/-- Model of `loadFromLocalStorage`, run by the constructor: read the stored
snapshot (`none` = key absent; the empty string is falsy and also skipped),
`JSON.parse` it with no surrounding try/catch — a parse failure propagates as a
thrown exception (`Except.error`) out of the constructor — and build the cache
from `Object.entries(data)`. Returns the entry list the `Map` is built from. -/
def loadFromLocalStorage (stored : Option String) : Except Unit (List (String × Json)) :=
  match stored with
  | none => Except.ok []
  | some s =>
      if s.isEmpty then Except.ok []
      else
        match jsonParse s with
        | none => Except.error ()
        | some j => objectEntries j

/-- Assignment of one property of a JavaScript object: replace the value of an
existing key in place, otherwise append the key. -/
def objSet (fs : List (String × Json)) (k : String) (v : Json) : List (String × Json) :=
  match fs with
  | [] => [(k, v)]
  | p :: rest => if p.1 = k then (k, v) :: rest else p :: objSet rest k v

/-- Model of `Object.fromEntries`: build an object by assigning each pair in
order. -/
def fromEntries (l : List (String × Json)) : List (String × Json) :=
  l.foldl (fun acc p => objSet acc p.1 p.2) []

/-- JSON value of one cached `ExchangeRate` as `JSON.stringify` serializes it
(an `undefined` optional field is omitted). -/
def exchangeRateToJson (e : ExchangeRate) : Json :=
  Json.obj ([("base", Json.str e.base), ("target", Json.str e.target),
             ("rate", Json.num e.rate), ("date", Json.str e.date)] ++
            (match e.source_date with
             | some d => [("source_date", Json.str d)]
             | none => []))

/-- Model of `saveToLocalStorage`: the JSON value of
`Object.fromEntries(this.cache.entries())`, which `JSON.stringify` then writes
losslessly (the string encode/decode of a well-formed JSON value is the
platform's inverse pair, so the snapshot is modelled at the value level). -/
def snapshotOfCache (c : Cache) : Json :=
  Json.obj (fromEntries (c.map (fun p => (p.1, Json.arr (p.2.map exchangeRateToJson)))))

/-- Read one `ExchangeRate` back from its JSON value; this is the typed view of
the structural trust `loadFromLocalStorage` places in the snapshot (the source
re-uses the parsed records as `ExchangeRate` without validation). -/
def exchangeRateOfJson (j : Json) : Option ExchangeRate :=
  match jsonGetField j "base", jsonGetField j "target",
        jsonGetField j "rate", jsonGetField j "date" with
  | some (Json.str b), some (Json.str t), some (Json.num r), some (Json.str d) =>
      match jsonGetField j "source_date" with
      | none => some { base := b, target := t, rate := r, date := d }
      | some (Json.str sd) => some { base := b, target := t, rate := r, date := d,
                                     source_date := some sd }
      | some _ => none
  | _, _, _, _ => none

/-- Read a `RateSet` back from its JSON array value. -/
def decodeRatesList : List Json → Option (List ExchangeRate)
  | [] => some []
  | j :: rest =>
      match exchangeRateOfJson j with
      | none => none
      | some e =>
          match decodeRatesList rest with
          | none => none
          | some es => some (e :: es)

/-- Read a `RateSet` back from a JSON value (must be an array). -/
def ratesOfJson (j : Json) : Option (List ExchangeRate) :=
  match j with
  | Json.arr xs => decodeRatesList xs
  | _ => none

/-- Read a cache back from its object entry list. -/
def decodeEntries : List (String × Json) → Option Cache
  | [] => some []
  | p :: rest =>
      match ratesOfJson p.2 with
      | none => none
      | some rs =>
          match decodeEntries rest with
          | none => none
          | some c => some ((p.1, rs) :: c)

/-- Reload a persisted snapshot value in a fresh process instance:
`new Map(Object.entries(data))`, read back at the `ExchangeRate` shape. -/
def cacheOfSnapshot (j : Json) : Option Cache :=
  match objectEntries j with
  | Except.error _ => none
  | Except.ok entries => decodeEntries entries

/-! ### Sequences of fetches (for the store invariant) -/

/-- A `(rs.map target)` duplicate check: `true` iff the rate set keeps at most
one entry per target. -/
def targetsNodup (rs : List ExchangeRate) : Bool :=
  decide (rs.map (fun r => r.target)).Nodup

/-- Store invariant: every base currency slot holds at most one `ExchangeRate`
per target. -/
def storeInv : Cache → Bool
  | [] => true
  | p :: rest => targetsNodup p.2 && storeInv rest

/-- One `fetchRates` call: the base requested, the two remote outcomes, and the
call's timestamp. -/
structure FetchEvent where
  base : String
  primary : Except Unit (List RawRateItem)
  fallback : Except Unit FrankResp
  now : Nat

/-- The rate set a `fetchRates` call stores, when one of its sources succeeds. -/
def evStoredRates (ev : FetchEvent) : Option (List ExchangeRate) :=
  match ev.primary with
  | Except.ok items => some (items.map rateOfItem)
  | Except.error _ =>
      match ev.fallback with
      | Except.ok d => some (d.rates.map (frankRate ev.base d.date))
      | Except.error _ => none

/-- A fetch event whose stored rate set (if any) has no duplicate target. The
fallback path satisfies this structurally (JavaScript object keys are unique);
for the worker path it is a property of the worker response. -/
def evWellFormed (ev : FetchEvent) : Bool :=
  match evStoredRates ev with
  | some rs => targetsNodup rs
  | none => true

/-- The state transition of one `fetchRates` call. -/
def stepFetch (s : StoreState) (ev : FetchEvent) : StoreState :=
  (fetchRates ev.base ev.primary ev.fallback ev.now s).2

/-- Run a sequence of `fetchRates` calls. -/
def runFetches (s : StoreState) (evs : List FetchEvent) : StoreState :=
  evs.foldl stepFetch s

/-! ### Helper lemmas -/

/-- Truncating two timestamps to UTC midnight identifies them exactly when they
lie in the same whole UTC day. -/
theorem utcMidnight_eq_iff (t now : Nat) :
    utcMidnight t = utcMidnight now ↔ sameUTCDay t now := by
  unfold utcMidnight sameUTCDay msPerDay
  omega

/-- With pairwise-distinct targets, `find?` locates exactly the member entry
carrying the requested target. -/
theorem find?_target_of_mem (rs : List ExchangeRate) (e : ExchangeRate) (t : String)
    (hmem : e ∈ rs) (ht : e.target = t)
    (hnd : (rs.map (fun r => r.target)).Nodup) :
    rs.find? (fun r => r.target == t) = some e := by
  induction rs with
  | nil => cases hmem
  | cons a rest ih =>
      simp only [List.map_cons, List.nodup_cons] at hnd
      rcases List.mem_cons.mp hmem with rfl | hmem'
      · simp [List.find?, ht]
      · have hat : a.target ≠ t := by
          intro h
          exact hnd.1 (h ▸ ht ▸ List.mem_map_of_mem (fun r => r.target) hmem')
        have hbeq : (a.target == t) = false := by simpa using hat
        simp only [List.find?, hbeq]
        exact ih hmem' hnd.2

/-- Setting a fresh key on an object appends it. -/
theorem objSet_of_not_mem (fs : List (String × Json)) (k : String) (v : Json)
    (h : ∀ p ∈ fs, p.1 ≠ k) : objSet fs k v = fs ++ [(k, v)] := by
  induction fs with
  | nil => rfl
  | cons p rest ih =>
      simp only [objSet]
      rw [if_neg (h p (List.mem_cons_self p rest))]
      simp [ih (fun q hq => h q (List.mem_cons_of_mem p hq))]

/-- Folding `objSet` over pairs whose keys are fresh and pairwise distinct
appends them in order. -/
theorem foldl_objSet_of_nodup (l : List (String × Json)) :
    ∀ acc : List (String × Json),
    (∀ p ∈ l, ∀ q ∈ acc, q.1 ≠ p.1) →
    (l.map Prod.fst).Nodup →
    l.foldl (fun a p => objSet a p.1 p.2) acc = acc ++ l := by
  induction l with
  | nil => intro acc _ _; simp
  | cons p rest ih =>
      intro acc hd hn
      simp only [List.map_cons, List.nodup_cons] at hn
      have hfresh : ∀ q ∈ acc, q.1 ≠ p.1 := hd p (List.mem_cons_self p rest)
      simp only [List.foldl_cons]
      rw [objSet_of_not_mem acc p.1 p.2 hfresh]
      rw [ih (acc ++ [(p.1, p.2)]) ?_ hn.2]
      · simp
      · intro r hr q hq
        rcases List.mem_append.mp hq with hq' | hq'
        · exact hd r (List.mem_cons_of_mem p hr) q hq'
        · have : q = (p.1, p.2) := by simpa using hq'
          subst this
          intro hkey
          exact hn.1 (hkey ▸ List.mem_map_of_mem Prod.fst hr)

/-- With duplicate-free keys, `Object.fromEntries` reproduces the entry list. -/
theorem fromEntries_of_nodup (l : List (String × Json))
    (h : (l.map Prod.fst).Nodup) : fromEntries l = l := by
  unfold fromEntries
  simpa using foldl_objSet_of_nodup l [] (by simp) h

/-- Decoding the serialized form of one `ExchangeRate` restores it. -/
theorem exchangeRateOfJson_toJson (e : ExchangeRate) :
    exchangeRateOfJson (exchangeRateToJson e) = some e := by
  obtain ⟨b, t, r, d, sd⟩ := e
  cases sd <;> rfl

/-- Decoding the serialized form of a rate list restores it. -/
theorem decodeRatesList_map (rs : List ExchangeRate) :
    decodeRatesList (rs.map exchangeRateToJson) = some rs := by
  induction rs with
  | nil => rfl
  | cons e rest ih =>
      simp [decodeRatesList, exchangeRateOfJson_toJson, ih]

/-- Decoding the serialized entry list of a cache restores it. -/
theorem decodeEntries_map (c : Cache) :
    decodeEntries (c.map (fun p => (p.1, Json.arr (p.2.map exchangeRateToJson)))) = some c := by
  induction c with
  | nil => rfl
  | cons p rest ih =>
      simp [decodeEntries, ratesOfJson, decodeRatesList_map, ih]

/-- Setting a key makes its slot hold exactly the new value. -/
theorem cacheGet_cacheSet_self (c : Cache) (k : String) (v : List ExchangeRate) :
    cacheGet (cacheSet c k v) k = some v := by
  induction c with
  | nil => simp [cacheSet, cacheGet]
  | cons p rest ih =>
      by_cases h : p.1 = k
      · simp [cacheSet, h, cacheGet]
      · simp [cacheSet, h, cacheGet, ih]

/-- Setting a slot to a duplicate-free rate set preserves the store invariant. -/
theorem storeInv_cacheSet (c : Cache) (k : String) (v : List ExchangeRate)
    (hc : storeInv c = true) (hv : targetsNodup v = true) :
    storeInv (cacheSet c k v) = true := by
  induction c with
  | nil => simp [cacheSet, storeInv, hv]
  | cons p rest ih =>
      simp only [storeInv, Bool.and_eq_true] at hc
      by_cases h : p.1 = k
      · simp [cacheSet, h, storeInv, hv, hc.2]
      · simp [cacheSet, h, storeInv, hc.1, ih hc.2]

/-- A `fetchRates` call either replaces the requested slot with the stored rate
set and refreshes the metadata timestamp, or (both sources failing) leaves the
state unchanged. -/
theorem stepFetch_eq (s : StoreState) (ev : FetchEvent) :
    stepFetch s ev =
      match evStoredRates ev with
      | some rs => { cache := cacheSet s.cache ev.base rs, metaLastFetch := some ev.now }
      | none => s := by
  obtain ⟨base, prim, fb, now⟩ := ev
  cases prim with
  | ok items => rfl
  | error u =>
      cases fb with
      | ok d => rfl
      | error v => rfl

/-- Auxiliary: running any sequence of fetches from a store satisfying the
at-most-one-entry-per-target invariant, where each event's stored rate set is
duplicate-free, keeps the invariant. -/
theorem runFetches_inv (evs : List FetchEvent) :
    ∀ s : StoreState, storeInv s.cache = true →
    (∀ ev ∈ evs, evWellFormed ev = true) →
    storeInv (runFetches s evs).cache = true := by
  induction evs with
  | nil => intro s hs _; exact hs
  | cons ev rest ih =>
      intro s hs hevs
      have hev := hevs ev (List.mem_cons_self ev rest)
      have hstep : storeInv (stepFetch s ev).cache = true := by
        rw [stepFetch_eq]
        cases hrs : evStoredRates ev with
        | none => simpa using hs
        | some rs =>
            have hv : targetsNodup rs = true := by
              unfold evWellFormed at hev
              rw [hrs] at hev
              exact hev
            simpa using storeInv_cacheSet s.cache ev.base rs hs hv
      exact ih (stepFetch s ev) hstep (fun e he => hevs e (List.mem_cons_of_mem ev he))

/-! ### The claims -/

/-- Claim C1: `fetchRates(base)` never throws (the model is a total function
into plain results, mirroring the catch-all nesting) and follows the ordered
fallback chain: on primary success the result never depends on the fallback
source (it is not consulted), and when both sources fail it returns the store's
existing rate set for `base` unchanged when one is present (`getD` of the
lookup) and the empty rate set when none is, leaving the state untouched. -/
theorem fetchRates_fallback_chain (base : String) (now : Nat) (s : StoreState)
    (items : List RawRateItem) (fb : Except Unit FrankResp) :
    fetchRates base (Except.ok items) fb now s
      = fetchRates base (Except.ok items) (Except.error ()) now s
    ∧ fetchRates base (Except.error ()) (Except.error ()) now s
      = ((cacheGet s.cache base).getD [], s) :=
  ⟨rfl, rfl⟩

/-- Claim C2: with `base ≠ target` and the store's rate set for `base`
containing (with unique targets) an entry for `target` with positive rate `r`,
`convert(a, base, target)` is exactly `a * r`; and against a store holding no
entry for that target, `convert` returns `null` (unknown rate). -/
theorem convert_exact_times_stored_rate (a : ℚ) (b t : String) (c c2 : Cache)
    (rs : List ExchangeRate) (e : ExchangeRate)
    (hbt : b ≠ t)
    (hc : cacheGet c b = some rs)
    (hmem : e ∈ rs) (ht : e.target = t)
    (hnd : (rs.map (fun r => r.target)).Nodup)
    (hr : 0 < e.rate)
    (hc2 : ∀ rs2, cacheGet c2 b = some rs2 → ∀ e2 ∈ rs2, e2.target ≠ t) :
    convert a b t c = some (a * e.rate) ∧ convert a b t c2 = none := by
  constructor
  · simp only [convert, if_neg hbt, getRate, hc,
      find?_target_of_mem rs e t hmem ht hnd, if_neg (ne_of_gt hr)]
  · simp only [convert, if_neg hbt, getRate]
    cases h2 : cacheGet c2 b with
    | none => rfl
    | some rs2 =>
        have hfind : rs2.find? (fun r => r.target == t) = none := by
          rw [List.find?_eq_none]
          intro x hx
          simpa using hc2 rs2 h2 x hx
        simp [hfind]

/-- Witness for C2 at the spec's own scenario: rate `0.85` for USD→EUR gives
`convert 100 = 85` exactly, and the empty store gives `null`. -/
theorem convert_exact_times_stored_rate_witness :
    convert 100 "USD" "EUR"
        [("USD", [{ base := "USD", target := "EUR", rate := 17/20, date := "2026-01-02" }])]
      = some (100 * (17/20))
    ∧ convert 100 "USD" "EUR" [] = none :=
  convert_exact_times_stored_rate 100 "USD" "EUR" _ _
    [{ base := "USD", target := "EUR", rate := 17/20, date := "2026-01-02" }]
    { base := "USD", target := "EUR", rate := 17/20, date := "2026-01-02" }
    (by decide) rfl (List.mem_singleton.mpr rfl) rfl (by decide) (by norm_num)
    (by intro rs2 h; simp [cacheGet] at h)

/-- Claim C3: `convert(a, x, x)` returns `a` unchanged for every store,
including the empty one, and never consults the store (the result is the same
for any two stores). -/
theorem convert_identity_no_lookup (a : ℚ) (x : String) (c c2 : Cache) :
    convert a x x c = some a ∧ convert a x x c = convert a x x c2 := by
  constructor <;> simp [convert]

/-- Claim C4: the `hasNewData` signal computed by `getMetadata` is `true` when
metadata reports never fetched, and otherwise equals the negation of "the last
fetch shares the current UTC calendar date" — so it is `false` for any
timestamp of the same UTC day regardless of elapsed hours and `true` exactly
when the UTC dates differ. -/
theorem staleness_is_utc_calendar_date (online : Bool) (now t : Nat) :
    (getMetadata none online now).hasNewData = true
    ∧ (getMetadata (some t) online now).hasNewData = !decide (sameUTCDay t now) := by
  refine ⟨rfl, ?_⟩
  have h1 : (getMetadata (some t) online now).hasNewData
      = decide (utcMidnight t ≠ utcMidnight now) := rfl
  rw [h1]
  simp only [ne_eq, decide_not]
  exact congrArg (fun b => !b) (decide_eq_decide.mpr (utcMidnight_eq_iff t now))

/-- Claim C5 (code bug): on a malformed stored snapshot the constructor's
`loadFromLocalStorage` propagates the `JSON.parse` exception (there is no
try/catch), contradicting the specified "store initializes empty, never
crashes startup"; the absent-snapshot half does behave as specified. -/
theorem load_malformed_snapshot_throws :
    loadFromLocalStorage (some "\x7b") = Except.error ()
    ∧ loadFromLocalStorage none = Except.ok [] :=
  ⟨rfl, rfl⟩

/-- Counterexample to claim C6: the persisted fetch metadata cannot identify
which source supplied the data — a fallback-success fetch and a primary-success
fetch of the same rates leave byte-identical results and state (`updateMetadata`
stores only `lastFetch`; no `source` field exists anywhere). -/
theorem fetchRates_metadata_ignores_source :
    fetchRates "USD" (Except.error ())
        (Except.ok { date := "2026-01-02", rates := [("EUR", 17/20)] }) 1000
        { cache := [], metaLastFetch := none }
      = fetchRates "USD"
          (Except.ok [{ base_currency := "USD", target_currency := "EUR",
                        rate := 17/20, date := "2026-01-02" }])
          (Except.error ()) 1000
          { cache := [], metaLastFetch := none } := rfl

/-- Claim C6 as amended: when the primary source fails and the fallback
succeeds, `fetchRates(base)` returns the fallback-built rate set, stores it in
the cache slot for `base`, and updates the persisted metadata — which records
only the fetch timestamp, not which source supplied the data. -/
theorem fetchRates_fallback_puts_and_timestamps (base : String) (d : FrankResp)
    (now : Nat) (s : StoreState) :
    fetchRates base (Except.error ()) (Except.ok d) now s
      = (d.rates.map (frankRate base d.date),
         { cache := cacheSet s.cache base (d.rates.map (frankRate base d.date)),
           metaLastFetch := some now }) := rfl

/-- Claim C7: an API request with the network unreachable is served from the
cached response for that exact request when one exists, else by the synthesized
response, which has status 503 and a JSON body carrying `offline: true`. -/
theorem api_request_offline_cache_or_503 (c : SwCache) (req : String) :
    handleApiRequest (Except.error ()) c req
      = ((swCacheMatch c req).getD offlineResponse, c)
    ∧ offlineResponse.status = 503
    ∧ jsonGetField offlineResponse.body "offline" = some (Json.bool true) := by
  refine ⟨?_, rfl, rfl⟩
  cases h : swCacheMatch c req <;> simp [handleApiRequest, h]

/-- Claim C8: serializing the rate store to the persisted snapshot and reading
it back in a fresh instance is the identity on the mapping (the `ExchangeRate`
shape survives the round trip); the keys of a `Map` are unique, hence the
hypothesis. -/
theorem snapshot_roundtrip (c : Cache) (h : (c.map Prod.fst).Nodup) :
    cacheOfSnapshot (snapshotOfCache c) = some c := by
  have hk : ((c.map (fun p => (p.1, Json.arr (p.2.map exchangeRateToJson)))).map
      Prod.fst).Nodup := by simpa using h
  unfold snapshotOfCache cacheOfSnapshot
  rw [fromEntries_of_nodup _ hk]
  simpa [objectEntries] using decodeEntries_map c

/-- Witness for C8 on a one-slot store. -/
theorem snapshot_roundtrip_witness :
    (([("USD", [{ base := "USD", target := "EUR", rate := 17/20,
                  date := "2026-01-02" : ExchangeRate}])].map Prod.fst).Nodup)
    ∧ cacheOfSnapshot (snapshotOfCache
        [("USD", [{ base := "USD", target := "EUR", rate := 17/20,
                    date := "2026-01-02" }])])
      = some [("USD", [{ base := "USD", target := "EUR", rate := 17/20,
                         date := "2026-01-02" }])] :=
  ⟨by decide, snapshot_roundtrip _ (by decide)⟩

/-- Claim C9: across any sequence of fetches from an invariant-satisfying
store, each base slot keeps at most one entry per target (given each stored
rate set is duplicate-free, which the fallback path guarantees structurally);
and a successful fetch fully replaces the slot for its base — the slot
afterwards is exactly the newly built rate set, for every prior store content
(no merge). -/
theorem fetch_sequence_keeps_invariant_and_replaces (s : StoreState)
    (evs : List FetchEvent)
    (hs : storeInv s.cache = true)
    (hevs : ∀ ev ∈ evs, evWellFormed ev = true) :
    storeInv (runFetches s evs).cache = true
    ∧ (∀ (base : String) (items : List RawRateItem) (fb : Except Unit FrankResp)
        (now : Nat) (s0 : StoreState),
        cacheGet (stepFetch s0 { base := base, primary := Except.ok items,
                                 fallback := fb, now := now }).cache base
          = some (items.map rateOfItem))
    ∧ (∀ (base : String) (d : FrankResp) (now : Nat) (s0 : StoreState),
        cacheGet (stepFetch s0 { base := base, primary := Except.error (),
                                 fallback := Except.ok d, now := now }).cache base
          = some (d.rates.map (frankRate base d.date))) := by
  refine ⟨runFetches_inv evs s hs hevs, ?_, ?_⟩
  · intro base items fb now s0
    exact cacheGet_cacheSet_self s0.cache base (items.map rateOfItem)
  · intro base d now s0
    exact cacheGet_cacheSet_self s0.cache base (d.rates.map (frankRate base d.date))

/-- Witness for C9: one primary-success fetch from the empty store. -/
theorem fetch_sequence_keeps_invariant_and_replaces_witness :
    storeInv (runFetches { cache := [], metaLastFetch := none }
      [{ base := "USD",
         primary := Except.ok [{ base_currency := "USD", target_currency := "EUR",
                                 rate := 17/20, date := "2026-01-02" }],
         fallback := Except.error (), now := 5 }]).cache = true :=
  (fetch_sequence_keeps_invariant_and_replaces
    { cache := [], metaLastFetch := none } _ (by decide) (by decide)).1

/-- Claim C10: a stored rate of exactly `0` is reported as absent — `getRate`
returns `null` (the `|| null` coercion treats `0` as falsy) and `convert`
therefore signals unknown rate instead of returning `0`. -/
theorem zero_rate_reported_absent (a : ℚ) (b t : String) (c : Cache)
    (rs : List ExchangeRate) (e : ExchangeRate)
    (hbt : b ≠ t) (hc : cacheGet c b = some rs)
    (hmem : e ∈ rs) (ht : e.target = t)
    (hnd : (rs.map (fun r => r.target)).Nodup)
    (h0 : e.rate = 0) :
    getRate c b t = none ∧ convert a b t c = none := by
  have hg : getRate c b t = none := by
    simp [getRate, hc, find?_target_of_mem rs e t hmem ht hnd, h0]
  exact ⟨hg, by simp only [convert, if_neg hbt, hg]⟩

/-- Witness for C10: a stored USD→EUR rate of `0`. -/
theorem zero_rate_reported_absent_witness :
    getRate [("USD", [{ base := "USD", target := "EUR", rate := 0,
                        date := "2026-01-02" }])] "USD" "EUR" = none
    ∧ convert 100 "USD" "EUR"
        [("USD", [{ base := "USD", target := "EUR", rate := 0,
                    date := "2026-01-02" }])] = none :=
  zero_rate_reported_absent 100 "USD" "EUR" _
    [{ base := "USD", target := "EUR", rate := 0, date := "2026-01-02" }]
    { base := "USD", target := "EUR", rate := 0, date := "2026-01-02" }
    (by decide) rfl (List.mem_singleton.mpr rfl) rfl (by decide) rfl

end CurrencyConverter
